import Mathlib

/-!
Verification of the JFKRAG ingestion / chunking / query pipeline.

JavaScript strings are modelled as `List Char`; JavaScript numeric string
indices (which can be negative) are modelled as `Int`.  The possibly
non-terminating `while` loops of the two chunker implementations are
modelled with explicit fuel, returning `none` when the fuel runs out.
-/

set_option maxHeartbeats 1000000

namespace JFKRag

/-- Whitespace recognized by the embedding of JavaScript
`String.prototype.trim` (the ASCII whitespace characters; the exotic
Unicode space characters never occur in the texts considered here). -/
def isJsWS (c : Char) : Bool :=
  c == ' ' || c == '\t' || c == '\n' || c == '\r' || c == '\x0b' || c == '\x0c'

/-- Embedding of JavaScript `String.prototype.trim`. -/
def jsTrim (s : List Char) : List Char :=
  ((s.dropWhile isJsWS).reverse.dropWhile isJsWS).reverse

/-- Embedding of JavaScript `String.prototype.slice(a, b)`: negative
indices count from the end of the string, and both endpoints are clamped
into the string bounds. -/
def jsSlice (s : List Char) (a b : Int) : List Char :=
  let len : Int := s.length
  let a2 : Int := if a < 0 then max (len + a) 0 else min a len
  let b2 : Int := if b < 0 then max (len + b) 0 else min b len
  (s.drop a2.toNat).take (b2 - a2).toNat

/-- Largest index `j ≤ k` at which character `c` occurs in `s`, or `-1`. -/
def lastIdxLe (s : List Char) (c : Char) : Nat → Int
  | 0 => if s.get? 0 = some c then 0 else -1
  | k + 1 => if s.get? (k + 1) = some c then (k : Int) + 1 else lastIdxLe s c k

/-- Embedding of JavaScript `String.prototype.lastIndexOf(c, i)` for a
single-character search string: the last occurrence of `c` at an index
`≤ i` (with `i` clamped into the string; a negative `i` still inspects
index `0`), or `-1`. -/
def jsLastIndexOf (s : List Char) (c : Char) (i : Int) : Int :=
  if s.length = 0 then -1 else lastIdxLe s c (min i.toNat (s.length - 1))

/-- Boundary snapping of `splitTextIntoChunks`
(src/scripts/ingest-documents.js, lines 294-305): prefer the last period
found at an index `≤ endIndex` if it lies after `startIndex` and within
100 characters of `endIndex`, else the last space within 20 characters. -/
def snapEnd (text : List Char) (startIndex endIndex : Int) : Int :=
  let period := jsLastIndexOf text '.' endIndex
  let space := jsLastIndexOf text ' ' endIndex
  if period > startIndex ∧ period > endIndex - 100 then period + 1
  else if space > startIndex ∧ space > endIndex - 20 then space + 1
  else endIndex

/-- The `endIndex` computed by one iteration of the `splitTextIntoChunks`
loop: `startIndex + chunkSize` snapped to a boundary when it falls short
of the text end, the text end itself otherwise. -/
def windowEnd (text : List Char) (chunkSize startIndex : Int) : Int :=
  if startIndex + chunkSize < (text.length : Int) then
    snapEnd text startIndex (startIndex + chunkSize)
  else (text.length : Int)

/-- The `while` loop of `splitTextIntoChunks`
(src/scripts/ingest-documents.js, lines 290-321), recorded as the list of
`(startIndex, endIndex)` windows it visits; iteration `i` of the source
loop pushes `text.slice(startIndex, endIndex).trim()` for the `i`-th
recorded window.  The loop body ends with
`startIndex = endIndex - overlap` followed by
`if (startIndex >= text.length - overlap) break`. -/
def chunkWindows (text : List Char) (chunkSize overlap : Int) :
    Nat → Int → List (Int × Int) → Option (List (Int × Int))
  | 0, _, _ => none
  | fuel + 1, startIndex, acc =>
    if startIndex < (text.length : Int) then
      if windowEnd text chunkSize startIndex - overlap ≥ (text.length : Int) - overlap then
        some (acc ++ [(startIndex, windowEnd text chunkSize startIndex)])
      else
        chunkWindows text chunkSize overlap fuel
          (windowEnd text chunkSize startIndex - overlap)
          (acc ++ [(startIndex, windowEnd text chunkSize startIndex)])
    else some acc

/-- Embedding of `splitTextIntoChunks` from src/scripts/ingest-documents.js
(lines 281-324).  A text no longer than `chunkSize` (including the empty
text) is returned as a single chunk, untrimmed; otherwise every loop
iteration contributes the trimmed slice of its window. -/
def splitTextIntoChunksF (text : List Char) (chunkSize overlap : Int) (fuel : Nat) :
    Option (List (List Char)) :=
  if (text.length : Int) ≤ chunkSize then some [text]
  else
    Option.map (fun ws => ws.map fun w => jsTrim (jsSlice text w.1 w.2))
      (chunkWindows text chunkSize overlap fuel 0 [])

/-- Boundary snapping of `splitIntoChunks` (src/unnamed/part_000,
lines 276-286): the last period within 100 characters, else the last
newline within 50 characters. -/
def snap2End (text : List Char) (startIndex endIndex : Int) : Int :=
  let period := jsLastIndexOf text '.' endIndex
  let newline := jsLastIndexOf text '\n' endIndex
  if period > startIndex ∧ period > endIndex - 100 then period + 1
  else if newline > startIndex ∧ newline > endIndex - 50 then newline + 1
  else endIndex

/-- The `endIndex` computed by one iteration of the `splitIntoChunks`
loop of src/unnamed/part_000: `Math.min(startIndex + size, text.length)`,
snapped to a boundary when it falls short of the text end. -/
def windowEnd2 (text : List Char) (size startIndex : Int) : Int :=
  if min (startIndex + size) (text.length : Int) < (text.length : Int) then
    snap2End text startIndex (min (startIndex + size) (text.length : Int))
  else min (startIndex + size) (text.length : Int)

/-- The `while` loop of `splitIntoChunks` (src/unnamed/part_000,
lines 271-292).  Note its exit test is `startIndex >= text.length`, with
no `- overlap` correction. -/
def chunks2Loop (text : List Char) (size overlap : Int) :
    Nat → Int → List (List Char) → Option (List (List Char))
  | 0, _, _ => none
  | fuel + 1, startIndex, acc =>
    if startIndex < (text.length : Int) then
      if windowEnd2 text size startIndex - overlap ≥ (text.length : Int) then
        some (acc ++ [jsTrim (jsSlice text startIndex (windowEnd2 text size startIndex))])
      else
        chunks2Loop text size overlap fuel (windowEnd2 text size startIndex - overlap)
          (acc ++ [jsTrim (jsSlice text startIndex (windowEnd2 text size startIndex))])
    else some acc

/-- Embedding of `splitIntoChunks` from src/unnamed/part_000
(lines 262-295): the empty text yields no chunks, a text no longer than
`size` yields a single chunk. -/
def splitIntoChunksF (text : List Char) (size overlap : Int) (fuel : Nat) :
    Option (List (List Char)) :=
  if text.length = 0 then some []
  else if (text.length : Int) ≤ size then some [text]
  else chunks2Loop text size overlap fuel 0 []

/-- The reconstruction used by the coverage claim: concatenate the chunks
with the first `overlap` characters of every chunk after the first
removed. -/
def overlapConcat (overlap : Nat) : List (List Char) → List Char
  | [] => []
  | c :: rest => c ++ (rest.map (List.drop overlap)).flatten

/-- Reconstruction of the text from the raw (untrimmed) windows after the
first: each later window contributes its slice with the first `overlap`
characters removed, i.e. the slice from `start + overlap` to `end`. -/
def reconTail (text : List Char) (overlap : Int) : List (Int × Int) → List Char
  | [] => []
  | w :: rest => jsSlice text (w.1 + overlap) w.2 ++ reconTail text overlap rest

/-- Reconstruction of the text from the raw (untrimmed) windows: the
first window contributes its whole slice, every later one its slice with
the leading `overlap` characters removed. -/
def reconstructW (text : List Char) (overlap : Int) : List (Int × Int) → List Char
  | [] => []
  | w :: rest => jsSlice text w.1 w.2 ++ reconTail text overlap rest

/-- The bookkeeping invariant of the window list produced by the
`splitTextIntoChunks` loop: each window starts where the loop's
`startIndex` stood, spans at least `overlap` characters, stays inside
the text, the last window ends at the text end, and every later window
starts at the previous window's end minus `overlap`. -/
def winChain (len overlap : Int) : Int → List (Int × Int) → Prop
  | _, [] => False
  | start, w :: rest =>
      w.1 = start ∧ w.1 + overlap ≤ w.2 ∧ w.2 ≤ len ∧
        (rest = [] → w.2 = len) ∧
        (rest ≠ [] → winChain len overlap (w.2 - overlap) rest)

/-- Embedding of the JavaScript `fileName.replace(/\.[^/.]+$/, '')` used
to build chunk ids: remove a final extension consisting of a dot
followed by one or more characters none of which is a dot or a slash. -/
def stripExt (s : List Char) : List Char :=
  if (s.reverse.takeWhile fun c => !(c == '.') && !(c == '/')) ≠ [] ∧
      (s.reverse.drop
        (s.reverse.takeWhile fun c => !(c == '.') && !(c == '/')).length).head? =
        some '.' then
    (s.reverse.drop
      ((s.reverse.takeWhile fun c => !(c == '.') && !(c == '/')).length + 1)).reverse
  else s

/-- The unique chunk id of src/scripts/ingest-documents.js line 360:
`fileName.replace(/\.[^/.]+$/, '') + '_chunk_' + i`. -/
def chunkId (fileName : List Char) (i : Nat) : List Char :=
  stripExt fileName ++ ("_chunk_" ++ toString i).toList

/-- Final loop state of `processPdfFile` (src/scripts/ingest-documents.js,
lines 339-385): the `processedChunks` and `failedChunks` counters and the
ids of the records upserted so far.  The function itself returns
`processedChunks`; `failedChunks` is logged. -/
structure IngestAcc where
  processed : Nat
  failed : Nat
  ids : List (List Char)

/-- The per-chunk loop of `processPdfFile`.  A chunk shorter than 10
characters is skipped with `continue` (counted in neither counter); a
chunk whose trimmed text is shorter than 10 characters makes
`getEmbedding` throw, which the `catch` turns into a failed chunk; the
oracle `ok i` abstracts the outcome of the remaining embedding + upsert
calls for chunk `i` (`false` covers a thrown error and an invalid
embedding, both of which count the chunk as failed and continue). -/
def ingestChunksAux (fileName : List Char) (ok : Nat → Bool) :
    List (List Char) → Nat → IngestAcc → IngestAcc
  | [], _, acc => acc
  | c :: rest, i, acc =>
    if c.length < 10 then ingestChunksAux fileName ok rest (i + 1) acc
    else if (jsTrim c).length < 10 then
      ingestChunksAux fileName ok rest (i + 1) ⟨acc.processed, acc.failed + 1, acc.ids⟩
    else if ok i then
      ingestChunksAux fileName ok rest (i + 1)
        ⟨acc.processed + 1, acc.failed, acc.ids ++ [chunkId fileName i]⟩
    else ingestChunksAux fileName ok rest (i + 1) ⟨acc.processed, acc.failed + 1, acc.ids⟩

/-- Run the `processPdfFile` chunk loop from the initial counters. -/
def processPdfFileRun (fileName : List Char) (chunks : List (List Char))
    (ok : Nat → Bool) : IngestAcc :=
  ingestChunksAux fileName ok chunks 0 ⟨0, 0, []⟩

/-- The value `processPdfFile` returns: its `processedChunks` counter. -/
def processPdfFileReturn (fileName : List Char) (chunks : List (List Char))
    (ok : Nat → Bool) : Nat :=
  (processPdfFileRun fileName chunks ok).processed

/-- One document of an ingestion run: its file name, its extracted chunk
list (`none` models a document-level failure, caught by the outer
`try`/`catch` of `processPdfFile`, which then returns 0), and the
per-chunk embedding/upsert oracle. -/
structure DocJob where
  fileName : List Char
  extracted : Option (List (List Char))
  ok : Nat → Bool

/-- `processPdfFile` including its outer `try`/`catch`: a document-level
failure yields 0 processed chunks instead of an exception. -/
def processPdfFileTop (d : DocJob) : Nat :=
  match d.extracted with
  | none => 0
  | some cs => (processPdfFileRun d.fileName cs d.ok).processed

/-- The document loop of `ingestDocuments`
(src/scripts/ingest-documents.js, lines 426-429):
`totalProcessedChunks += processPdfFile(file)` over the files in order. -/
def ingestTotal : List DocJob → Nat
  | [] => 0
  | d :: ds => processPdfFileTop d + ingestTotal ds

/-- A chunk is counted as processed iff it survives the length guard, its
trimmed text passes `getEmbedding`'s guard, and the embed + upsert calls
succeed. -/
def chunkProcessedB (c : List Char) (b : Bool) : Bool :=
  decide (10 ≤ c.length) && decide (10 ≤ (jsTrim c).length) && b

/-- A chunk is counted as failed iff it survives the length guard but
`getEmbedding` rejects its trimmed text or the embed/upsert calls fail. -/
def chunkFailedB (c : List Char) (b : Bool) : Bool :=
  decide (10 ≤ c.length) && (!decide (10 ≤ (jsTrim c).length) || !b)

/-- Metadata carried by a vector-index record, as read back by the query
handler (src/pages/api/query.js): the chunk text, and the possibly
absent `source` and `url` fields. -/
structure RMeta where
  text : String
  source : Option String
  url : Option String

/-- A retrieval match returned by the vector-index query, ranked by the
index.  The score type is kept abstract (the handler only copies
scores, never computes with them). -/
structure RMatch (σ : Type) where
  id : String
  score : σ
  metadata : RMeta

/-- One entry of the `sources` list built by the query handler
(src/pages/api/query.js, lines 85-90). -/
structure SourceRef (σ : Type) where
  id : String
  score : σ
  document : String
  url : String

/-- The environment variables the query handler reads. -/
structure QueryEnv where
  openRouterApiKey : Option String
  openAiApiKey : Option String
  pineconeApiKey : Option String
  pineconeIndexName : Option String

/-- JavaScript falsiness of an possibly-absent string: `undefined` and
the empty string are falsy. -/
def jsFalsy : Option String → Bool
  | none => true
  | some s => s == ""

/-- JavaScript `x || d` for a possibly-absent string `x`. -/
def jsOrDefault (o : Option String) (d : String) : String :=
  match o with
  | none => d
  | some s => if s == "" then d else s

/-- The source entry built from one match:
`{id: match.id, score: match.score, document: match.metadata.source ||
'Unknown', url: match.metadata.url || ''}`. -/
def mkSource {σ : Type} (m : RMatch σ) : SourceRef σ :=
  ⟨m.id, m.score, jsOrDefault m.metadata.source "Unknown",
    jsOrDefault m.metadata.url ""⟩

/-- The canned zero-match answer of src/pages/api/query.js line 75. -/
def insufficientAnswer : String :=
  "I don\x27t have enough information to answer this question based on the JFK Archives."

/-- The system message sent to the generation client
(src/pages/api/query.js, lines 106-112), with the retrieval context
appended. -/
def systemContent (context : String) : String :=
  "You are an AI assistant that answers questions about JFK documents based on the following context. \nIf the information is not in the context, say you don\x27t know.\nAlways cite the document sources in your answer using numbers like [1], [2], etc.\nWhen citing sources, reference the specific documents that contain the information.\n\nContext:\n"
    ++ context

/-- Observable outcome of one query-handler invocation: the HTTP status,
the JSON `error` field, the JSON `answer` field, the JSON `sources`
list, whether each of the three external calls (embedding, index search,
chat completion) was issued, and the system message sent to the
generation client if it was called. -/
structure HandlerOut (σ : Type) where
  status : Nat
  errMsg : Option String
  answer : Option String
  sources : List (SourceRef σ)
  embedCalled : Bool
  searchCalled : Bool
  genCalled : Bool
  genSystem : Option String

/-- Embedding of the query handler of src/pages/api/query.js
(lines 3-131).  `embedOk` abstracts whether the embeddings call returned
ok; `searchRes` is the `matches` field of the index response (`none`
models an absent field, read as `[]` by `queryResponse.matches || []`);
`genRes` is the generated answer, `none` modelling a response without
`choices`, which the handler's `catch` turns into a generic 500. -/
def handler (σ : Type) (method : String) (query : Option String) (env : QueryEnv)
    (embedOk : Bool) (searchRes : Option (List (RMatch σ))) (genRes : Option String) :
    HandlerOut σ :=
  if method ≠ "POST" then
    ⟨405, some "Method not allowed", none, [], false, false, false, none⟩
  else if jsFalsy query then
    ⟨400, some "Query is required", none, [], false, false, false, none⟩
  else if jsFalsy env.openRouterApiKey then
    ⟨500, some "OPENROUTER_API_KEY environment variable is required", none, [],
      false, false, false, none⟩
  else if jsFalsy env.openAiApiKey then
    ⟨500, some "OPENAI_API_KEY environment variable is required", none, [],
      false, false, false, none⟩
  else if jsFalsy env.pineconeApiKey || jsFalsy env.pineconeIndexName then
    ⟨500, some "Pinecone configuration is incomplete. Check PINECONE_API_KEY and PINECONE_INDEX_NAME environment variables.",
      none, [], false, false, false, none⟩
  else if !embedOk then
    ⟨500, some "Failed to generate embeddings from OpenAI API", none, [],
      true, false, false, none⟩
  else if (searchRes.getD []).isEmpty then
    ⟨200, none, some insufficientAnswer, [], true, true, false, none⟩
  else
    match genRes with
    | some ans =>
        ⟨200, none, some ans, (searchRes.getD []).map mkSource, true, true, true,
          some (systemContent (String.intercalate "\n\n"
            ((searchRes.getD []).map fun m => m.metadata.text)))⟩
    | none =>
        ⟨500, some "An error occurred while processing your query", none, [],
          true, true, true,
          some (systemContent (String.intercalate "\n\n"
            ((searchRes.getD []).map fun m => m.metadata.text)))⟩

/-! Theorems about the chunkers -/

lemma chunks2Loop_step10 (fuel : Nat) (acc : List (List Char)) :
    chunks2Loop (List.replicate 12 'b') 10 2 (fuel + 1) 10 acc =
      chunks2Loop (List.replicate 12 'b') 10 2 fuel 10 (acc ++ [['b', 'b']]) := by
  rfl

lemma chunks2Loop_stuck10 :
    ∀ (fuel : Nat) (acc : List (List Char)),
      chunks2Loop (List.replicate 12 'b') 10 2 fuel 10 acc = none := by
  intro fuel
  induction fuel with
  | zero => intro acc; rfl
  | succ n ih =>
    intro acc
    rw [chunks2Loop_step10]
    exact ih _

lemma chunks2Loop_stuck8 :
    ∀ (fuel : Nat) (acc : List (List Char)),
      chunks2Loop (List.replicate 12 'b') 10 2 fuel 8 acc = none := by
  intro fuel acc
  cases fuel with
  | zero => rfl
  | succ n =>
    have h : chunks2Loop (List.replicate 12 'b') 10 2 (n + 1) 8 acc =
        chunks2Loop (List.replicate 12 'b') 10 2 n 10 (acc ++ [['b', 'b', 'b', 'b']]) := by
      rfl
    rw [h]
    exact chunks2Loop_stuck10 _ _

lemma chunks2Loop_stuck0 :
    ∀ (fuel : Nat) (acc : List (List Char)),
      chunks2Loop (List.replicate 12 'b') 10 2 fuel 0 acc = none := by
  intro fuel acc
  cases fuel with
  | zero => rfl
  | succ n =>
    have h : chunks2Loop (List.replicate 12 'b') 10 2 (n + 1) 0 acc =
        chunks2Loop (List.replicate 12 'b') 10 2 n 8
          (acc ++ [List.replicate 10 'b']) := by
      rfl
    rw [h]
    exact chunks2Loop_stuck8 _ _

/-- C1.  The claim that the chunker terminates for every text and every
`maxSize > 0`, `0 ≤ overlap < maxSize` fails on the code: `splitIntoChunks`
of src/unnamed/part_000 never reaches its exit condition on a text of 12
letters with `size = 10`, `overlap = 2` (its guard `start >= text.length`
never fires once `start` settles at `text.length - overlap`), so the run
returns `none` for every amount of fuel. -/
theorem splitIntoChunks_diverges :
    ∀ fuel : Nat, splitIntoChunksF (List.replicate 12 'b') 10 2 fuel = none := by
  intro fuel
  have h : splitIntoChunksF (List.replicate 12 'b') 10 2 fuel =
      chunks2Loop (List.replicate 12 'b') 10 2 fuel 0 [] := by
    rfl
  rw [h]
  exact chunks2Loop_stuck0 _ _

/-- C2 (amended).  `splitIntoChunks` of src/unnamed/part_000 returns the
empty sequence on the empty text, for every `size`, `overlap` and fuel. -/
theorem splitIntoChunks_empty :
    ∀ (size overlap : Int) (fuel : Nat), splitIntoChunksF [] size overlap fuel = some [] :=
  fun _ _ _ => rfl

/-- C2 counterexample.  `splitTextIntoChunks` of
src/scripts/ingest-documents.js does *not* return the empty sequence on
the empty text: it returns one chunk holding the empty string. -/
theorem splitTextIntoChunks_empty_cx :
    splitTextIntoChunksF [] 1000 200 1 = some [[]] ∧
      splitTextIntoChunksF [] 1000 200 1 ≠ some [] := by
  constructor
  · rfl
  · decide

lemma lastIdxLe_le (s : List Char) (c : Char) : ∀ k : Nat, lastIdxLe s c k ≤ (k : Int) := by
  intro k
  induction k with
  | zero => rw [lastIdxLe]; split <;> omega
  | succ n ih => rw [lastIdxLe]; split <;> omega

lemma neg_one_le_lastIdxLe (s : List Char) (c : Char) :
    ∀ k : Nat, -1 ≤ lastIdxLe s c k := by
  intro k
  induction k with
  | zero => rw [lastIdxLe]; split <;> omega
  | succ n ih => rw [lastIdxLe]; split <;> omega

lemma jsLastIndexOf_le_toNat (s : List Char) (c : Char) (i : Int) :
    jsLastIndexOf s c i ≤ (i.toNat : Int) := by
  rw [jsLastIndexOf]
  split
  · omega
  · have h1 := lastIdxLe_le s c (min i.toNat (s.length - 1))
    have h2 : min i.toNat (s.length - 1) ≤ i.toNat := Nat.min_le_left _ _
    omega

lemma neg_one_le_jsLastIndexOf (s : List Char) (c : Char) (i : Int) :
    -1 ≤ jsLastIndexOf s c i := by
  rw [jsLastIndexOf]
  split
  · omega
  · exact neg_one_le_lastIdxLe s c _

lemma jsLastIndexOf_lt_length (s : List Char) (c : Char) (i : Int) :
    jsLastIndexOf s c i < (s.length : Int) := by
  rw [jsLastIndexOf]
  split
  · omega
  · have h1 := lastIdxLe_le s c (min i.toNat (s.length - 1))
    have h2 : min i.toNat (s.length - 1) ≤ s.length - 1 := Nat.min_le_right _ _
    omega

lemma jsTrim_length_le (s : List Char) : (jsTrim s).length ≤ s.length := by
  rw [jsTrim]
  have h1 := (List.dropWhile_sublist (l := s) isJsWS).length_le
  have h2 := (List.dropWhile_sublist (l := (s.dropWhile isJsWS).reverse) isJsWS).length_le
  simp only [List.length_reverse] at h2 ⊢
  omega

lemma jsSlice_length_le (s : List Char) (a b k : Int) (hk : 0 ≤ k)
    (hba : b ≤ a + k) (hneg : b < 0 → a ≤ b) :
    ((jsSlice s a b).length : Int) ≤ k := by
  rw [jsSlice]
  simp only [List.length_take, List.length_drop, min_def, max_def]
  split_ifs <;> omega

lemma jsSlice_length_le_right (s : List Char) (a b : Int) (ha : a < 0) (hb : 0 ≤ b) :
    ((jsSlice s a b).length : Int) ≤ b := by
  rw [jsSlice]
  simp only [List.length_take, List.length_drop, min_def, max_def]
  split_ifs <;> omega

/-- Every chunk cut at a snapped boundary has length at most
`chunkSize + 1`: `lastIndexOf('.', endIndex)` may return `endIndex`
itself, so the snapped end can exceed the raw window end by one. -/
lemma snapEnd_chunk_len (text : List Char) (chunkSize startIndex : Int)
    (hs : 0 ≤ chunkSize) :
    ((jsTrim (jsSlice text startIndex
        (snapEnd text startIndex (startIndex + chunkSize)))).length : Int)
      ≤ chunkSize + 1 := by
  have hp1 := jsLastIndexOf_le_toNat text '.' (startIndex + chunkSize)
  have hp2 := neg_one_le_jsLastIndexOf text '.' (startIndex + chunkSize)
  have hsp1 := jsLastIndexOf_le_toNat text ' ' (startIndex + chunkSize)
  have hsp2 := neg_one_le_jsLastIndexOf text ' ' (startIndex + chunkSize)
  rw [snapEnd]
  split_ifs with h1 h2
  · have htrim := jsTrim_length_le
      (jsSlice text startIndex (jsLastIndexOf text '.' (startIndex + chunkSize) + 1))
    rcases le_or_lt 0 (startIndex + chunkSize) with he | he
    · have hb := jsSlice_length_le text startIndex
        (jsLastIndexOf text '.' (startIndex + chunkSize) + 1) (chunkSize + 1)
        (by omega) (by omega) (by omega)
      omega
    · have hb := jsSlice_length_le_right text startIndex
        (jsLastIndexOf text '.' (startIndex + chunkSize) + 1) (by omega) (by omega)
      omega
  · have htrim := jsTrim_length_le
      (jsSlice text startIndex (jsLastIndexOf text ' ' (startIndex + chunkSize) + 1))
    rcases le_or_lt 0 (startIndex + chunkSize) with he | he
    · have hb := jsSlice_length_le text startIndex
        (jsLastIndexOf text ' ' (startIndex + chunkSize) + 1) (chunkSize + 1)
        (by omega) (by omega) (by omega)
      omega
    · have hb := jsSlice_length_le_right text startIndex
        (jsLastIndexOf text ' ' (startIndex + chunkSize) + 1) (by omega) (by omega)
      omega
  · have htrim := jsTrim_length_le (jsSlice text startIndex (startIndex + chunkSize))
    have hb := jsSlice_length_le text startIndex (startIndex + chunkSize) (chunkSize + 1)
      (by omega) (by omega) (by omega)
    omega

/-- Loop invariant for the chunk-size bound: every window recorded before
the final one was cut strictly inside the text, hence its trimmed slice
is at most `chunkSize + 1` characters long. -/
lemma chunkWindows_dropLast_bound (text : List Char) (chunkSize overlap : Int)
    (hs : 0 ≤ chunkSize) :
    ∀ (fuel : Nat) (start : Int) (acc ws : List (Int × Int)),
      chunkWindows text chunkSize overlap fuel start acc = some ws →
      (∀ w ∈ acc, ((jsTrim (jsSlice text w.1 w.2)).length : Int) ≤ chunkSize + 1) →
      ∀ w ∈ ws.dropLast, ((jsTrim (jsSlice text w.1 w.2)).length : Int) ≤ chunkSize + 1 := by
  intro fuel
  induction fuel with
  | zero =>
    intro start acc ws h
    simp [chunkWindows] at h
  | succ n ih =>
    intro start acc ws h hacc
    rw [chunkWindows] at h
    by_cases hlt : start < (text.length : Int)
    · rw [if_pos hlt] at h
      by_cases hbr : windowEnd text chunkSize start - overlap ≥ (text.length : Int) - overlap
      · rw [if_pos hbr] at h
        have hws : ws = acc ++ [(start, windowEnd text chunkSize start)] :=
          (Option.some.injEq _ _).mp h |>.symm
        intro w hw
        rw [hws, List.dropLast_concat] at hw
        exact hacc w hw
      · rw [if_neg hbr] at h
        refine ih _ _ _ h ?_
        intro w hw
        rcases List.mem_append.mp hw with h1 | h2
        · exact hacc w h1
        · have hw2 := List.mem_singleton.mp h2
          subst hw2
          by_cases hc : start + chunkSize < (text.length : Int)
          · simp only [windowEnd, if_pos hc]
            exact snapEnd_chunk_len text chunkSize start hs
          · exfalso
            apply hbr
            rw [windowEnd, if_neg hc]
    · rw [if_neg hlt] at h
      have hws : ws = acc := (Option.some.injEq _ _).mp h |>.symm
      intro w hw
      rw [hws] at hw
      exact hacc w ((List.dropLast_sublist acc).subset hw)

/-- C3 (amended).  Every chunk produced by `splitTextIntoChunks` except
possibly the last has length at most `maxSize + 1` (not `maxSize`: the
boundary snap can include a period sitting exactly at the window end);
and a text no longer than `maxSize` is returned as the single whole
chunk. -/
theorem splitTextIntoChunks_size_bound (text : List Char) (chunkSize overlap : Int)
    (fuel : Nat) (cs : List (List Char)) (hs : 0 ≤ chunkSize)
    (h : splitTextIntoChunksF text chunkSize overlap fuel = some cs) :
    (∀ c ∈ cs.dropLast, ((c.length : Int) ≤ chunkSize + 1)) ∧
      ((text.length : Int) ≤ chunkSize → cs = [text]) := by
  rw [splitTextIntoChunksF] at h
  by_cases hlen : (text.length : Int) ≤ chunkSize
  · rw [if_pos hlen] at h
    have hcs : cs = [text] := ((Option.some.injEq _ _).mp h).symm
    subst hcs
    constructor
    · intro c hc
      simp at hc
    · intro _
      rfl
  · rw [if_neg hlen] at h
    rcases Option.map_eq_some'.mp h with ⟨ws, hws, hmap⟩
    constructor
    · intro c hc
      rw [← hmap, ← List.map_dropLast] at hc
      rcases List.mem_map.mp hc with ⟨w, hw, hwc⟩
      rw [← hwc]
      exact chunkWindows_dropLast_bound text chunkSize overlap hs fuel 0 [] ws hws
        (by simp) w hw
    · intro hcon
      exact absurd hcon hlen

/-- C3 witness: a concrete terminating run of `splitTextIntoChunks`
satisfying the amended size bound. -/
theorem splitTextIntoChunks_size_bound_witness :
    (0 : Int) ≤ 10 ∧
      splitTextIntoChunksF ("aaaa bbbb cccc dddd".toList) 10 2 5 =
        some ["aaaa bbbb".toList, "b cccc".toList, "c dddd".toList] ∧
      ((∀ c ∈ (["aaaa bbbb".toList, "b cccc".toList, "c dddd".toList] :
          List (List Char)).dropLast, ((c.length : Int) ≤ 10 + 1)) ∧
        ((("aaaa bbbb cccc dddd".toList : List Char).length : Int) ≤ 10 →
          ["aaaa bbbb".toList, "b cccc".toList, "c dddd".toList] =
            ["aaaa bbbb cccc dddd".toList])) :=
  ⟨by decide, by decide,
    splitTextIntoChunks_size_bound ("aaaa bbbb cccc dddd".toList) 10 2 5
      ["aaaa bbbb".toList, "b cccc".toList, "c dddd".toList] (by decide) (by decide)⟩

/-- C3 counterexample.  With `maxSize = 10`, `overlap = 2` the first
chunk of `"aaaaaaaaaa.zzzzz"` is 11 characters long — longer than
`maxSize` — and it is not the last chunk: the period sits exactly at the
raw window end, and `endIndex = period + 1` overshoots by one. -/
theorem splitTextIntoChunks_size_bound_cx :
    splitTextIntoChunksF ("aaaaaaaaaa.zzzzz".toList) 10 2 3 =
        some ["aaaaaaaaaa.".toList, "a.zzzzz".toList] ∧
      (["aaaaaaaaaa.".toList, "a.zzzzz".toList] : List (List Char)).dropLast =
        ["aaaaaaaaaa.".toList] ∧
      10 < ("aaaaaaaaaa.".toList : List Char).length := by
  refine ⟨by decide, by decide, by decide⟩

lemma jsSlice_of_nonneg (s : List Char) (a b : Int) (h0 : 0 ≤ a) (hb0 : 0 ≤ b)
    (ha : a ≤ (s.length : Int)) (hb : b ≤ (s.length : Int)) :
    jsSlice s a b = (s.drop a.toNat).take (b.toNat - a.toNat) := by
  simp only [jsSlice]
  rw [if_neg (by omega : ¬a < 0), if_neg (by omega : ¬b < 0),
    min_eq_left ha, min_eq_left hb]
  congr 1
  omega

lemma jsSlice_glue (s : List Char) (a b c : Int) (h0 : 0 ≤ a) (hab : a ≤ b)
    (hbc : b ≤ c) (hc : c ≤ (s.length : Int)) :
    jsSlice s a b ++ jsSlice s b c = jsSlice s a c := by
  rw [jsSlice_of_nonneg s a b (by omega) (by omega) (by omega) (by omega),
    jsSlice_of_nonneg s b c (by omega) (by omega) (by omega) (by omega),
    jsSlice_of_nonneg s a c (by omega) (by omega) (by omega) (by omega)]
  have hdrop : s.drop b.toNat = (s.drop a.toNat).drop (b.toNat - a.toNat) := by
    rw [List.drop_drop]
    congr 1
    omega
  rw [hdrop, ← List.take_add]
  congr 1
  omega

lemma jsSlice_full (s : List Char) : jsSlice s 0 (s.length : Int) = s := by
  rw [jsSlice_of_nonneg s 0 (s.length : Int) le_rfl (by positivity) (by positivity) le_rfl]
  simp

/-- In the snapped regime (`startIndex + chunkSize < text.length`) with
`overlap + 99 ≤ chunkSize`, one loop iteration always moves the window
end strictly past `startIndex + overlap`, and keeps it inside the text. -/
lemma windowEnd_bounds (text : List Char) (chunkSize overlap startIndex : Int)
    (_hov : 0 ≤ overlap) (hsz : overlap + 99 ≤ chunkSize)
    (hlt : startIndex + overlap < (text.length : Int)) :
    startIndex + overlap < windowEnd text chunkSize startIndex ∧
      windowEnd text chunkSize startIndex ≤ (text.length : Int) := by
  rw [windowEnd]
  split_ifs with hc
  · rw [snapEnd]
    have hp := jsLastIndexOf_lt_length text '.' (startIndex + chunkSize)
    have hsp := jsLastIndexOf_lt_length text ' ' (startIndex + chunkSize)
    split_ifs with h1 h2
    · obtain ⟨h1a, h1b⟩ := h1
      constructor <;> omega
    · obtain ⟨h2a, h2b⟩ := h2
      constructor <;> omega
    · constructor <;> omega
  · constructor <;> omega

/-- Loop invariant: a terminating run of the `splitTextIntoChunks` loop
extends the accumulator with a window list satisfying `winChain`. -/
lemma chunkWindows_chain (text : List Char) (chunkSize overlap : Int)
    (hov : 0 ≤ overlap) (hsz : overlap + 99 ≤ chunkSize) :
    ∀ (fuel : Nat) (start : Int) (acc ws : List (Int × Int)),
      chunkWindows text chunkSize overlap fuel start acc = some ws →
      0 ≤ start → start + overlap < (text.length : Int) →
      ∃ tail, ws = acc ++ tail ∧ winChain (text.length : Int) overlap start tail := by
  intro fuel
  induction fuel with
  | zero =>
    intro start acc ws h
    simp [chunkWindows] at h
  | succ n ih =>
    intro start acc ws h h0 hlt
    rw [chunkWindows] at h
    rw [if_pos (by omega : start < (text.length : Int))] at h
    obtain ⟨hwe1, hwe2⟩ := windowEnd_bounds text chunkSize overlap start hov hsz hlt
    by_cases hbr : windowEnd text chunkSize start - overlap ≥ (text.length : Int) - overlap
    · rw [if_pos hbr] at h
      refine ⟨[(start, windowEnd text chunkSize start)],
        ((Option.some.injEq _ _).mp h).symm, ?_⟩
      rw [winChain]
      exact ⟨rfl, by omega, hwe2, fun _ => by omega, fun hne => absurd rfl hne⟩
    · rw [if_neg hbr] at h
      obtain ⟨tail, htl, hch⟩ := ih (windowEnd text chunkSize start - overlap)
        (acc ++ [(start, windowEnd text chunkSize start)]) ws h (by omega) (by omega)
      refine ⟨(start, windowEnd text chunkSize start) :: tail, by rw [htl]; simp, ?_⟩
      rw [winChain]
      refine ⟨rfl, by omega, hwe2, ?_, fun _ => hch⟩
      intro htn
      rw [htn, winChain] at hch
      exact hch.elim

lemma reconTail_eq (text : List Char) (overlap : Int) (hov : 0 ≤ overlap) :
    ∀ (ws : List (Int × Int)) (start : Int),
      winChain (text.length : Int) overlap start ws → 0 ≤ start →
      reconTail text overlap ws = jsSlice text (start + overlap) (text.length : Int) := by
  intro ws
  induction ws with
  | nil =>
    intro start hch
    rw [winChain] at hch
    exact hch.elim
  | cons w rest ih =>
    intro start hch hst
    rw [winChain] at hch
    obtain ⟨h1, h2, h3, h4, h5⟩ := hch
    rw [reconTail]
    by_cases hrest : rest = []
    · subst hrest
      rw [reconTail, List.append_nil, h1, h4 rfl]
    · rw [ih (w.2 - overlap) (h5 hrest) (by omega)]
      have he : w.2 - overlap + overlap = w.2 := by omega
      rw [he, h1]
      exact jsSlice_glue text (start + overlap) w.2 (text.length : Int)
        (by omega) (by omega) h3 le_rfl

lemma reconstructW_eq (text : List Char) (overlap : Int) (hov : 0 ≤ overlap)
    (ws : List (Int × Int)) (start : Int)
    (hch : winChain (text.length : Int) overlap start ws) (hst : 0 ≤ start) :
    reconstructW text overlap ws = jsSlice text start (text.length : Int) := by
  cases ws with
  | nil =>
    rw [winChain] at hch
    exact hch.elim
  | cons w rest =>
    rw [winChain] at hch
    obtain ⟨h1, h2, h3, h4, h5⟩ := hch
    rw [reconstructW]
    by_cases hrest : rest = []
    · subst hrest
      rw [reconTail, List.append_nil, h1, h4 rfl]
    · rw [reconTail_eq text overlap hov rest (w.2 - overlap) (h5 hrest) (by omega)]
      have he : w.2 - overlap + overlap = w.2 := by omega
      rw [he, h1]
      exact jsSlice_glue text start w.2 (text.length : Int) hst (by omega) h3 le_rfl

lemma winChain_succ (len overlap : Int) :
    ∀ (ws : List (Int × Int)) (start : Int),
      winChain len overlap start ws →
      ∀ i : Nat, i + 1 < ws.length →
        (ws.getD (i + 1) (0, 0)).1 = (ws.getD i (0, 0)).2 - overlap := by
  intro ws
  induction ws with
  | nil =>
    intro start hch
    rw [winChain] at hch
    exact hch.elim
  | cons w rest ih =>
    intro start hch i hi
    rw [winChain] at hch
    obtain ⟨h1, h2, h3, h4, h5⟩ := hch
    cases rest with
    | nil => simp at hi
    | cons w2 rest2 =>
      have hch2 := h5 (by simp)
      cases i with
      | zero =>
        have hw2 : w2.1 = w.2 - overlap := by
          rw [winChain] at hch2
          exact hch2.1
        simpa using hw2
      | succ j =>
        have hj := ih (w.2 - overlap) hch2 j (by simp at hi ⊢; omega)
        simpa using hj

/-- C4 (amended).  For `overlap + 99 ≤ maxSize` (which the source
defaults `maxSize = 1000`, `overlap = 200` satisfy) and a text longer
than `maxSize`, every successive raw window start equals the previous
window end minus `overlap`, and concatenating the raw (untrimmed) window
slices with the first `overlap` characters of each later window removed
reconstructs the text exactly.  The returned chunks themselves are
trimmed, so the same reconstruction from the chunks can drop whitespace
(see the counterexample). -/
theorem splitTextIntoChunks_coverage (text : List Char) (chunkSize overlap : Int)
    (fuel : Nat) (ws : List (Int × Int)) (hov : 0 ≤ overlap)
    (hsz : overlap + 99 ≤ chunkSize) (hlen : chunkSize < (text.length : Int))
    (h : chunkWindows text chunkSize overlap fuel 0 [] = some ws) :
    (∀ i : Nat, i + 1 < ws.length →
        (ws.getD (i + 1) (0, 0)).1 = (ws.getD i (0, 0)).2 - overlap) ∧
      reconstructW text overlap ws = text := by
  obtain ⟨tail, htl, hch⟩ := chunkWindows_chain text chunkSize overlap hov hsz
    fuel 0 [] ws h le_rfl (by omega)
  rw [List.nil_append] at htl
  subst htl
  constructor
  · exact winChain_succ _ _ ws 0 hch
  · rw [reconstructW_eq text overlap hov ws 0 hch le_rfl]
    exact jsSlice_full text

/-- C4 witness: a concrete terminating run whose raw windows chain with
the declared overlap and reconstruct the text. -/
theorem splitTextIntoChunks_coverage_witness :
    (0 : Int) ≤ 0 ∧ (0 : Int) + 99 ≤ 99 ∧
      (99 : Int) < ((List.replicate 100 'a').length : Int) ∧
      chunkWindows (List.replicate 100 'a') 99 0 3 0 [] =
        some [((0 : Int), (99 : Int)), (99, 100)] ∧
      ((∀ i : Nat, i + 1 < ([((0 : Int), (99 : Int)), (99, 100)] : List (Int × Int)).length →
          (([((0 : Int), (99 : Int)), (99, 100)] : List (Int × Int)).getD (i + 1) (0, 0)).1 =
            (([((0 : Int), (99 : Int)), (99, 100)] : List (Int × Int)).getD i (0, 0)).2 - 0) ∧
        reconstructW (List.replicate 100 'a') 0 [((0 : Int), (99 : Int)), (99, 100)] =
          List.replicate 100 'a') :=
  ⟨le_rfl, by norm_num, by decide, by decide,
    splitTextIntoChunks_coverage (List.replicate 100 'a') 99 0 3
      [((0 : Int), (99 : Int)), (99, 100)] le_rfl (by norm_num) (by decide) (by decide)⟩

/-- C4 counterexample.  Because the pushed chunks are trimmed, removing
the overlap from the returned chunks and concatenating does not
reconstruct the input: boundary whitespace has been dropped. -/
theorem splitTextIntoChunks_coverage_cx :
    splitTextIntoChunksF ("aaaa bbbb cccc dddd".toList) 10 2 5 =
        some ["aaaa bbbb".toList, "b cccc".toList, "c dddd".toList] ∧
      overlapConcat 2 ["aaaa bbbb".toList, "b cccc".toList, "c dddd".toList] ≠
        "aaaa bbbb cccc dddd".toList := by
  refine ⟨by decide, by decide⟩

/-! Theorems about the ingestion loop -/

/-- Closed form of the `processPdfFile` chunk loop: the final counters
and upserted ids are per-chunk sums/maps over the indexed chunk list, so
each chunk's outcome is independent of every other chunk's outcome. -/
lemma ingestChunksAux_closed (fileName : List Char) (ok : Nat → Bool) :
    ∀ (cs : List (List Char)) (i : Nat) (acc : IngestAcc),
      ingestChunksAux fileName ok cs i acc =
        ⟨acc.processed +
            (List.enumFrom i cs).countP (fun x => chunkProcessedB x.2 (ok x.1)),
          acc.failed +
            (List.enumFrom i cs).countP (fun x => chunkFailedB x.2 (ok x.1)),
          acc.ids ++
            ((List.enumFrom i cs).filter (fun x => chunkProcessedB x.2 (ok x.1))).map
              (fun x => chunkId fileName x.1)⟩ := by
  intro cs
  induction cs with
  | nil => intro i acc; simp [ingestChunksAux, List.enumFrom]
  | cons c rest ih =>
    intro i acc
    rw [ingestChunksAux]
    split_ifs with h1 h2 h3
    · have hp : chunkProcessedB c (ok i) = false := by
        have hd : decide (10 ≤ c.length) = false := decide_eq_false (by omega)
        simp [chunkProcessedB, hd]
      have hf : chunkFailedB c (ok i) = false := by
        have hd : decide (10 ≤ c.length) = false := decide_eq_false (by omega)
        simp [chunkFailedB, hd]
      rw [ih]
      simp [List.enumFrom_cons, List.countP_cons, List.filter_cons, hp, hf]
    · have hp : chunkProcessedB c (ok i) = false := by
        have hd : decide (10 ≤ (jsTrim c).length) = false := decide_eq_false (by omega)
        simp [chunkProcessedB, hd]
      have hf : chunkFailedB c (ok i) = true := by
        have hd1 : decide (10 ≤ c.length) = true := decide_eq_true (by omega)
        have hd2 : decide (10 ≤ (jsTrim c).length) = false := decide_eq_false (by omega)
        simp [chunkFailedB, hd1, hd2]
      rw [ih]
      simp only [List.enumFrom_cons, List.countP_cons, List.filter_cons, hp, hf]
      simp
      omega
    · have hp : chunkProcessedB c (ok i) = true := by
        have hd1 : decide (10 ≤ c.length) = true := decide_eq_true (by omega)
        have hd2 : decide (10 ≤ (jsTrim c).length) = true := decide_eq_true (by omega)
        simp [chunkProcessedB, hd1, hd2, h3]
      have hf : chunkFailedB c (ok i) = false := by
        have hd1 : decide (10 ≤ c.length) = true := decide_eq_true (by omega)
        have hd2 : decide (10 ≤ (jsTrim c).length) = true := decide_eq_true (by omega)
        simp [chunkFailedB, hd1, hd2, h3]
      rw [ih]
      simp only [List.enumFrom_cons, List.countP_cons, List.filter_cons, hp, hf]
      simp
      omega
    · have hp : chunkProcessedB c (ok i) = false := by
        have hb : ok i = false := by
          cases hoki : ok i
          · rfl
          · exact absurd hoki h3
        simp [chunkProcessedB, hb]
      have hf : chunkFailedB c (ok i) = true := by
        have hd1 : decide (10 ≤ c.length) = true := decide_eq_true (by omega)
        have hb : ok i = false := by
          cases hoki : ok i
          · rfl
          · exact absurd hoki h3
        simp [chunkFailedB, hd1, hb]
      rw [ih]
      simp only [List.enumFrom_cons, List.countP_cons, List.filter_cons, hp, hf]
      simp
      omega

/-- The processed and failed counters always add up to the number of
chunks that pass the 10-character guard. -/
lemma ingestChunksAux_sum (fileName : List Char) (ok : Nat → Bool) :
    ∀ (cs : List (List Char)) (i : Nat) (acc : IngestAcc),
      (ingestChunksAux fileName ok cs i acc).processed +
          (ingestChunksAux fileName ok cs i acc).failed =
        acc.processed + acc.failed + cs.countP (fun c => decide (10 ≤ c.length)) := by
  intro cs
  induction cs with
  | nil => intro i acc; simp [ingestChunksAux]
  | cons c rest ih =>
    intro i acc
    rw [ingestChunksAux]
    split_ifs with h1 h2 h3 <;>
      rw [ih, List.countP_cons] <;>
      [skip;
        rw [decide_eq_true (by omega : 10 ≤ c.length)];
        rw [decide_eq_true (by omega : 10 ≤ c.length)];
        rw [decide_eq_true (by omega : 10 ≤ c.length)]]
    · rw [decide_eq_false (by omega : ¬10 ≤ c.length)]
      simp
    · simp; omega
    · simp; omega
    · simp; omega

/-- C5.  Failure isolation of ingestion: the final `processedChunks` and
`failedChunks` counters of `processPdfFile` are per-chunk counts over
the chunk list (a failed embed/upsert for one chunk adds one to the
failed count and cannot change any other chunk's contribution), and the
document loop's total is additive over the document list (a failing
document contributes 0 and cannot affect the rest).  The counts are the
returned final state of a total function — no exception escapes. -/
theorem ingestion_failure_isolation :
    (∀ (fileName : List Char) (chunks : List (List Char)) (ok : Nat → Bool),
        (processPdfFileRun fileName chunks ok).processed =
            chunks.enum.countP (fun x => chunkProcessedB x.2 (ok x.1)) ∧
          (processPdfFileRun fileName chunks ok).failed =
            chunks.enum.countP (fun x => chunkFailedB x.2 (ok x.1))) ∧
      ∀ (docs1 docs2 : List DocJob),
        ingestTotal (docs1 ++ docs2) = ingestTotal docs1 + ingestTotal docs2 := by
  constructor
  · intro fn cs ok
    rw [processPdfFileRun, ingestChunksAux_closed]
    constructor <;> simp [List.enum]
  · intro d1 d2
    induction d1 with
    | nil => simp [ingestTotal]
    | cons d ds ih =>
      rw [List.cons_append, ingestTotal, ingestTotal, ih]
      omega

/-- C8.  The upserted record ids are a deterministic function of the
file name and the chunk list: the id of the chunk at zero-based position
`i` is `stripExt fileName ++ "_chunk_" ++ i`, ids are emitted in
position order, and the ids do not depend on anything else (two runs
over the same file name and chunks with the same per-chunk outcomes
produce the same ids — so re-ingestion addresses the same records and
upserts overwrite instead of duplicating). -/
theorem chunk_ids_deterministic (fileName : List Char) (chunks : List (List Char))
    (ok : Nat → Bool) :
    (processPdfFileRun fileName chunks ok).ids =
        (chunks.enum.filter (fun x => chunkProcessedB x.2 (ok x.1))).map
          (fun x => chunkId fileName x.1) ∧
      (∀ i : Nat, chunkId fileName i =
          stripExt fileName ++ ("_chunk_" ++ toString i).toList) ∧
      ∀ ok2 : Nat → Bool, (∀ j, j < chunks.length → ok j = ok2 j) →
        (processPdfFileRun fileName chunks ok).ids =
          (processPdfFileRun fileName chunks ok2).ids := by
  refine ⟨?_, fun i => rfl, ?_⟩
  · rw [processPdfFileRun, ingestChunksAux_closed]
    simp [List.enum]
  · intro ok2 hagree
    rw [processPdfFileRun, processPdfFileRun, ingestChunksAux_closed,
      ingestChunksAux_closed]
    simp only [List.nil_append]
    congr 1
    apply List.filter_congr
    intro x hx
    have hxl : x.1 < 0 + chunks.length := List.fst_lt_add_of_mem_enumFrom hx
    rw [hagree x.1 (by omega)]

/-- C8 witness: two runs over the same single-chunk document, with
oracles that agree on the document's chunks, upsert the same ids. -/
theorem chunk_ids_deterministic_witness :
    (processPdfFileRun ("doc.pdf".toList) ["abcdefghijkl".toList] (fun _ => true)).ids =
      (processPdfFileRun ("doc.pdf".toList) ["abcdefghijkl".toList] (fun j => j == 0)).ids :=
  (chunk_ids_deterministic ("doc.pdf".toList) ["abcdefghijkl".toList] (fun _ => true)).2.2
    (fun j => j == 0) (by decide)

/-- C10 (amended).  Chunks shorter than 10 characters are skipped and
counted in neither counter, so `processedChunks + failedChunks` equals
the number of chunks passing the 10-character guard, which can be
strictly below the number of chunks the chunker produced (concrete
instance: one 4-character chunk and one 12-character chunk give
`processed + failed = 1` out of 2 chunks).  A chunk of raw length ≥ 10
whose trimmed length is < 10 is counted as failed, not skipped — see the
counterexample. -/
theorem short_chunks_uncounted :
    (∀ (fileName : List Char) (chunks : List (List Char)) (ok : Nat → Bool),
        (processPdfFileRun fileName chunks ok).processed +
            (processPdfFileRun fileName chunks ok).failed =
          chunks.countP (fun c => decide (10 ≤ c.length))) ∧
      (processPdfFileRun ("doc.pdf".toList) ["tiny".toList, "abcdefghijkl".toList]
            (fun _ => true)).processed +
          (processPdfFileRun ("doc.pdf".toList) ["tiny".toList, "abcdefghijkl".toList]
            (fun _ => true)).failed = 1 ∧
      (["tiny".toList, "abcdefghijkl".toList] : List (List Char)).length = 2 := by
  refine ⟨?_, by decide, by decide⟩
  intro fn cs ok
  rw [processPdfFileRun, ingestChunksAux_sum]
  simp

/-- C10 counterexample.  A chunk whose raw length is 10 but whose
trimmed length is 8 (`"abcdefgh  "`) is *not* skipped: it passes the
`chunk.length < 10` guard, then `getEmbedding` rejects its trimmed text,
and the catch counts it as a failed chunk — so a chunk with trimmed
length below 10 can be counted in `failedChunks`. -/
theorem short_trimmed_chunk_counted_failed :
    (jsTrim ("abcdefgh  ".toList)).length < 10 ∧
      (processPdfFileRun ("doc.pdf".toList) [("abcdefgh  ".toList)]
        (fun _ => true)).processed = 0 ∧
      (processPdfFileRun ("doc.pdf".toList) [("abcdefgh  ".toList)]
        (fun _ => true)).failed = 1 := by
  refine ⟨by decide, by decide, by decide⟩

/-! Theorems about the query handler -/

/-- C9.  For any request whose method is not POST the handler returns
status 405 with error body `Method not allowed`, regardless of the
request body, the environment and every external-service outcome, and
issues none of the embedding, search or generation calls. -/
theorem handler_non_post (σ : Type) (method : String) (query : Option String)
    (env : QueryEnv) (embedOk : Bool) (searchRes : Option (List (RMatch σ)))
    (genRes : Option String) (h : method ≠ "POST") :
    handler σ method query env embedOk searchRes genRes =
      ⟨405, some "Method not allowed", none, [], false, false, false, none⟩ := by
  rw [handler.eq_def, if_pos h]

/-- C9 witness. -/
theorem handler_non_post_witness :
    ("GET" : String) ≠ "POST" ∧
      handler Nat "GET" (some "q") ⟨none, none, none, none⟩ true none none =
        ⟨405, some "Method not allowed", none, [], false, false, false, none⟩ :=
  ⟨by decide, handler_non_post Nat "GET" (some "q") ⟨none, none, none, none⟩
    true none none (by decide)⟩

/-- C6.  A POST query with a non-empty query string, a complete
environment and a successful embedding whose index search yields zero
matches gets a 200 response carrying the canned insufficient-information
answer and an empty sources list; no error is returned and the
generation client is not called. -/
theorem handler_zero_matches (σ : Type) (query : Option String) (env : QueryEnv)
    (searchRes : Option (List (RMatch σ))) (genRes : Option String)
    (hq : jsFalsy query = false)
    (h1 : jsFalsy env.openRouterApiKey = false)
    (h2 : jsFalsy env.openAiApiKey = false)
    (h3 : jsFalsy env.pineconeApiKey = false)
    (h4 : jsFalsy env.pineconeIndexName = false)
    (hs : searchRes.getD [] = []) :
    handler σ "POST" query env true searchRes genRes =
      ⟨200, none, some insufficientAnswer, [], true, true, false, none⟩ := by
  rw [handler.eq_def]
  rw [if_neg (by simp), if_neg (by simp [hq]), if_neg (by simp [h1]),
    if_neg (by simp [h2]), if_neg (by simp [h3, h4]), if_neg (by simp),
    if_pos (by simp [hs])]

/-- C6 witness. -/
theorem handler_zero_matches_witness :
    jsFalsy (some "what happened") = false ∧
      jsFalsy (some "or-key") = false ∧
      (Option.getD (some ([] : List (RMatch Nat))) []) = [] ∧
      handler Nat "POST" (some "what happened")
          ⟨some "or-key", some "oa-key", some "pc-key", some "jfkfiles"⟩
          true (some []) none =
        ⟨200, none, some insufficientAnswer, [], true, true, false, none⟩ :=
  ⟨by decide, by decide, rfl,
    handler_zero_matches Nat (some "what happened")
      ⟨some "or-key", some "oa-key", some "pc-key", some "jfkfiles"⟩
      (some []) none (by decide) (by decide) (by decide) (by decide) (by decide) rfl⟩

/-- C7.  For a successful query with a non-empty ranked match list the
returned sources are exactly the matches mapped through `mkSource` in
rank order (same length, and the `i`-th source is built from the `i`-th
match, carrying its id, score, document and url), and the system message
sent to the generation client concatenates the matched chunks' texts in
that same rank order, so the citation numbering `[1]..[K]` of the prompt
refers to that order. -/
theorem handler_source_order (σ : Type) (query : Option String) (env : QueryEnv)
    (ms : List (RMatch σ)) (ans : String)
    (hq : jsFalsy query = false)
    (h1 : jsFalsy env.openRouterApiKey = false)
    (h2 : jsFalsy env.openAiApiKey = false)
    (h3 : jsFalsy env.pineconeApiKey = false)
    (h4 : jsFalsy env.pineconeIndexName = false)
    (hm : ms ≠ []) :
    handler σ "POST" query env true (some ms) (some ans) =
        ⟨200, none, some ans, ms.map mkSource, true, true, true,
          some (systemContent (String.intercalate "\n\n"
            (ms.map fun m => m.metadata.text)))⟩ ∧
      (ms.map mkSource).length = ms.length ∧
      ∀ (i : Nat) (hi : i < ms.length) (hi2 : i < (ms.map mkSource).length),
        (ms.map mkSource).get ⟨i, hi2⟩ = mkSource (ms.get ⟨i, hi⟩) := by
  refine ⟨?_, by simp, ?_⟩
  · rw [handler.eq_def]
    rw [if_neg (by simp), if_neg (by simp [hq]), if_neg (by simp [h1]),
      if_neg (by simp [h2]), if_neg (by simp [h3, h4]), if_neg (by simp),
      if_neg (by simp [List.isEmpty_iff, hm])]
    rfl
  · intro i hi hi2
    simp [List.getElem_map]

/-- C7 witness: three ranked matches keep their order in the sources
and in the generation context. -/
theorem handler_source_order_witness :
    jsFalsy (some "who") = false ∧
      ([(⟨"a_chunk_0", (9 : Int), ⟨"textone", some "a.pdf", none⟩⟩ : RMatch Int),
          ⟨"b_chunk_3", 8, ⟨"texttwo", some "b.pdf", none⟩⟩,
          ⟨"c_chunk_1", 7, ⟨"textthree", none, some "u"⟩⟩] ≠ []) ∧
      (handler Int "POST" (some "who")
          ⟨some "or-key", some "oa-key", some "pc-key", some "jfkfiles"⟩
          true
          (some [⟨"a_chunk_0", 9, ⟨"textone", some "a.pdf", none⟩⟩,
            ⟨"b_chunk_3", 8, ⟨"texttwo", some "b.pdf", none⟩⟩,
            ⟨"c_chunk_1", 7, ⟨"textthree", none, some "u"⟩⟩])
          (some "answer [1][2][3]") =
          ⟨200, none, some "answer [1][2][3]",
            ([⟨"a_chunk_0", 9, ⟨"textone", some "a.pdf", none⟩⟩,
              ⟨"b_chunk_3", 8, ⟨"texttwo", some "b.pdf", none⟩⟩,
              ⟨"c_chunk_1", 7, ⟨"textthree", none, some "u"⟩⟩] :
                List (RMatch Int)).map mkSource,
            true, true, true,
            some (systemContent (String.intercalate "\n\n"
              (([⟨"a_chunk_0", 9, ⟨"textone", some "a.pdf", none⟩⟩,
                ⟨"b_chunk_3", 8, ⟨"texttwo", some "b.pdf", none⟩⟩,
                ⟨"c_chunk_1", 7, ⟨"textthree", none, some "u"⟩⟩] :
                  List (RMatch Int)).map fun m => m.metadata.text)))⟩ ∧
        (([⟨"a_chunk_0", 9, ⟨"textone", some "a.pdf", none⟩⟩,
            ⟨"b_chunk_3", 8, ⟨"texttwo", some "b.pdf", none⟩⟩,
            ⟨"c_chunk_1", 7, ⟨"textthree", none, some "u"⟩⟩] :
              List (RMatch Int)).map mkSource).length =
          ([⟨"a_chunk_0", 9, ⟨"textone", some "a.pdf", none⟩⟩,
            ⟨"b_chunk_3", 8, ⟨"texttwo", some "b.pdf", none⟩⟩,
            ⟨"c_chunk_1", 7, ⟨"textthree", none, some "u"⟩⟩] :
              List (RMatch Int)).length ∧
        ∀ (i : Nat)
          (hi : i < ([⟨"a_chunk_0", 9, ⟨"textone", some "a.pdf", none⟩⟩,
            ⟨"b_chunk_3", 8, ⟨"texttwo", some "b.pdf", none⟩⟩,
            ⟨"c_chunk_1", 7, ⟨"textthree", none, some "u"⟩⟩] :
              List (RMatch Int)).length)
          (hi2 : i < (([⟨"a_chunk_0", 9, ⟨"textone", some "a.pdf", none⟩⟩,
            ⟨"b_chunk_3", 8, ⟨"texttwo", some "b.pdf", none⟩⟩,
            ⟨"c_chunk_1", 7, ⟨"textthree", none, some "u"⟩⟩] :
              List (RMatch Int)).map mkSource).length),
          (([⟨"a_chunk_0", 9, ⟨"textone", some "a.pdf", none⟩⟩,
            ⟨"b_chunk_3", 8, ⟨"texttwo", some "b.pdf", none⟩⟩,
            ⟨"c_chunk_1", 7, ⟨"textthree", none, some "u"⟩⟩] :
              List (RMatch Int)).map mkSource).get ⟨i, hi2⟩ =
            mkSource (([⟨"a_chunk_0", 9, ⟨"textone", some "a.pdf", none⟩⟩,
              ⟨"b_chunk_3", 8, ⟨"texttwo", some "b.pdf", none⟩⟩,
              ⟨"c_chunk_1", 7, ⟨"textthree", none, some "u"⟩⟩] :
                List (RMatch Int)).get ⟨i, hi⟩)) :=
  ⟨by decide, by simp,
    handler_source_order Int (some "who")
      ⟨some "or-key", some "oa-key", some "pc-key", some "jfkfiles"⟩
      [⟨"a_chunk_0", 9, ⟨"textone", some "a.pdf", none⟩⟩,
        ⟨"b_chunk_3", 8, ⟨"texttwo", some "b.pdf", none⟩⟩,
        ⟨"c_chunk_1", 7, ⟨"textthree", none, some "u"⟩⟩]
      "answer [1][2][3]" (by decide) (by decide) (by decide) (by decide) (by decide)
      (by simp)⟩

end JFKRag
